import Mathlib

/-!
Shallow embedding of the mapping-format converter of DecompilerMC
(`src/main.py`): the functions `remove_brackets`, `remap_file_path` and
`convert_mappings`.  Python strings are modelled as `List Char`; the
Python string primitives used by the converter (`split`, `strip`,
substring test, slicing) are modelled below with the exact semantics of
their Python counterparts.  Fallible statements (tuple-unpacking of a
`split` result) are modelled with `Option`.
-/

/-- Python strings, modelled as lists of characters. -/
abbrev PyStr := List Char

/-- Coerce a Lean string literal to the `List Char` model. -/
def str (s : String) : PyStr := s.toList

/-- Python `a.startswith(b)` / list-prefix test, by decidable equality. -/
def pyPre : PyStr → PyStr → Bool
  | [], _ => true
  | _ :: _, [] => false
  | a :: as, b :: bs => if a = b then pyPre as bs else false

/-- Python `needle in hay` substring test. -/
def pyContains (needle : PyStr) : PyStr → Bool
  | [] => pyPre needle []
  | c :: t => pyPre needle (c :: t) || pyContains needle t

/-- Whitespace characters stripped by Python `str.strip` (the ones that
can occur in a mappings file). -/
def isPySpace (c : Char) : Bool :=
  c = ' ' || c = '\t' || c = '\n' || c = '\r'

/-- Python `s.lstrip()`. -/
def pyStripLeft (s : PyStr) : PyStr := s.dropWhile isPySpace

/-- Python `s.rstrip()`. -/
def pyStripRight (s : PyStr) : PyStr := (s.reverse.dropWhile isPySpace).reverse

/-- Cons a character onto the first piece of a split result. -/
def consHead (c : Char) : List PyStr → List PyStr
  | [] => [[c]]
  | h :: t => (c :: h) :: t

/-- Python `s.split(sep)` for a one-character separator `sep`. -/
def pySplitChar (sep : Char) : PyStr → List PyStr
  | [] => [[]]
  | c :: t => if c = sep then [] :: pySplitChar sep t else consHead c (pySplitChar sep t)

/-- Fuelled worker for `pySplitOn`: Python `s.split(sep)` for a
multi-character separator, splitting at leftmost non-overlapping
occurrences.  Each step consumes at least one character of `s`, so fuel
`s.length + 1` always suffices. -/
def pySplitOnF (sep : PyStr) : Nat → PyStr → List PyStr
  | 0, s => [s]
  | f + 1, s =>
    if pyPre sep s then [] :: pySplitOnF sep f (s.drop sep.length)
    else
      match s with
      | [] => [[]]
      | c :: t => consHead c (pySplitOnF sep f t)

/-- Python `s.split(sep)` (non-empty multi-character separator). -/
def pySplitOn (sep : PyStr) (s : PyStr) : List PyStr :=
  pySplitOnF sep (s.length + 1) s

/-- Python tuple unpacking `a, b = parts` of a split result: succeeds
only when there are exactly two pieces, otherwise a `ValueError`. -/
def asPair : List PyStr → Option (PyStr × PyStr)
  | [a, b] => some (a, b)
  | _ => none

/-- Python `sep.join(pieces)`. -/
def joinWith (sep : PyStr) : List PyStr → PyStr
  | [] => []
  | [x] => x
  | x :: y :: t => x ++ sep ++ joinWith sep (y :: t)

/-- Fuelled worker for `remove_brackets`.  One unit of fuel per loop
iteration; every iteration removes two characters, so fuel `line.length`
always suffices. -/
def removeBracketsF : Nat → PyStr → Nat → PyStr × Nat
  | 0, line, counter => (line, counter)
  | f + 1, line, counter =>
    if pyContains (str "[]") line then
      removeBracketsF f (line.take (line.length - 2)) (counter + 1)
    else (line, counter)

/-- Model of `remove_brackets` (src/main.py:399-403): while `'[]' in
line`, increment the counter and drop the last two characters
(`line = line[:-2]`). -/
def remove_brackets (line : PyStr) (counter : Nat) : PyStr × Nat :=
  removeBracketsF line.length line counter

/-- The literal dictionary `remap_primitives` of `remap_file_path`. -/
def remap_primitives : List (PyStr × PyStr) :=
  [(str "int", str "I"), (str "double", str "D"), (str "boolean", str "Z"),
   (str "float", str "F"), (str "long", str "J"), (str "byte", str "B"),
   (str "short", str "S"), (str "char", str "C"), (str "void", str "V")]

/-- Association-list lookup, modelling Python `d[k]` guarded by `k in d`
(for the class index dictionary, keys pushed at the front shadow older
entries, matching assignment semantics). -/
def dictLookup (m : List (PyStr × PyStr)) (k : PyStr) : Option PyStr :=
  match m with
  | [] => none
  | (k', v) :: t => if k' = k then some v else dictLookup t k

/-- Model of `remap_file_path` (src/main.py:406-409): primitive keywords
map to their one-character descriptor, any other token maps to
`"L" + "/".join(path.split(".")) + ";"`. -/
def remap_file_path (path : PyStr) : PyStr :=
  match dictLookup remap_primitives path with
  | some v => v
  | none => 'L' :: (joinWith (str "/") (pySplitChar '.' path) ++ str ";")

/-- One iteration of the bracket-restoring loop of `convert_mappings`:
if the descriptor ends in `;` the `[` is inserted in front and the `;`
kept last (`"[" + t[:-1] + ";"`), otherwise `[` is prepended. -/
def bracketStep (s : PyStr) : PyStr :=
  match s.getLast? with
  | some c => if c = ';' then '[' :: (s.take (s.length - 1) ++ str ";") else '[' :: s
  | none => '[' :: s

/-- The bracket-restoring loop `for i in range(k): ...` of
`convert_mappings`, applied to a descriptor. -/
def applyBrackets : Nat → PyStr → PyStr
  | 0, s => s
  | k + 1, s => applyBrackets k (bracketStep s)

/-- The class index built by the first pass: encoded deobfuscated class
descriptor to obfuscated name. -/
abbrev Index := List (PyStr × PyStr)

/-- The per-type translation pipeline of `convert_mappings`
(src/main.py:450-479), shared verbatim between the return type and each
parameter type: strip array brackets, encode via `remap_file_path`,
substitute the obfuscated class name when the descriptor is a key of the
class index, rewrite any remaining dots to slashes, and restore the
array brackets in front. -/
def translateType (idx : Index) (token : PyStr) : PyStr :=
  let p := remove_brackets token 0
  let t2 := remap_file_path p.1
  let t3 :=
    match dictLookup idx t2 with
    | some obf => 'L' :: (obf ++ str ";")
    | none => t2
  let t4 :=
    if pyContains (str ".") t3 then joinWith (str "/") (pySplitChar '.' t3) else t3
  applyBrackets p.2 t4

/-- The parameter-list substring of a method's deobfuscated side:
`method_name.split('(')[-1].split(')')[0]` (src/main.py:449). -/
def methodParams (mn : PyStr) : PyStr :=
  (pySplitChar ')' ((pySplitChar '(' mn).getLastD [])).headD []

/-- The bare method name: `method_name.split('(')[0]` (src/main.py:450). -/
def methodName (mn : PyStr) : PyStr := (pySplitChar '(' mn).headD []

/-- The parameter-list translation of `convert_mappings`
(src/main.py:461-476).  The zeros list `array_length_variables` is
created with one entry per character of the parameter string, but the
loop runs over the pieces of `variables.split(",")`; when there are
more pieces than characters — exactly when the non-empty string is all
commas — indexing it raises an uncaught `IndexError`, modelled here by
`none`.  Otherwise each piece goes through the shared per-type
pipeline and the descriptors are concatenated with no separator. -/
def paramsOut (idx : Index) (params : PyStr) : Option PyStr :=
  if params = [] then some []
  else if params.length < (pySplitChar ',' params).length then none
  else some (List.map (translateType idx) (pySplitChar ',' params)).flatten

/-- Translation of one indented member line (second pass, indented
branch of `convert_mappings`, src/main.py:438-483).  `d` and `o` are the
two pieces of the ` -> ` split.  `none` models the `ValueError` raised
when `deobf_name.split(" ")` does not have exactly two pieces, and the
`IndexError` raised inside the parameter loop (see `paramsOut`). -/
def translateMember (idx : Index) (d o : PyStr) : Option PyStr :=
  let o1 := pyStripRight o
  let d1 := pyStripLeft d
  match asPair (pySplitChar ' ' d1) with
  | none => none
  | some (mt0, mn) =>
    let mt := (pySplitChar ':' mt0).getLastD []
    if pyContains (str "(") mn && pyContains (str ")") mn then
      match paramsOut idx (methodParams mn) with
      | none => none
      | some vout =>
        some (str "\t" ++ o1 ++ str " (" ++ vout ++ str ")" ++ translateType idx mt
          ++ str " " ++ methodName mn ++ str "\n")
    else
      some (str "\t" ++ o1 ++ str " " ++ mn ++ str "\n")

/-- Rendering of one class-header line in the second pass
(src/main.py:486-487): both sides encoded with `remap_file_path` and the
leading `L` / trailing `;` sliced off (`[1:-1]`). -/
def classLine (d o : PyStr) : PyStr :=
  let o2 := (pySplitChar ':' o).headD []
  let left := remap_file_path o2
  let right := remap_file_path d
  (left.drop 1).take (left.length - 2) ++ str " " ++ (right.drop 1).take (right.length - 2)
    ++ str "\n"

/-- Python `line.startswith('#')`. -/
def isComment (l : PyStr) : Bool := pyPre (str "#") l

/-- Python `line.startswith('    ')`. -/
def isIndented (l : PyStr) : Bool := pyPre (str "    ") l

/-- First pass of `convert_mappings` (src/main.py:422-431): every
non-comment line is split on ` -> ` (a `ValueError`, modelled by `none`,
aborts the pass), and every class-header line inserts its encoded
deobfuscated descriptor and obfuscated name into the index. -/
def firstPassAux (m : Index) : List PyStr → Option Index
  | [] => some m
  | l :: ls =>
    if isComment l then firstPassAux m ls
    else
      match asPair (pySplitOn (str " -> ") l) with
      | none => none
      | some (d, o) =>
        if isIndented l then firstPassAux m ls
        else firstPassAux (((remap_file_path d), (pySplitChar ':' o).headD []) :: m) ls

/-- Second pass of `convert_mappings` (src/main.py:432-487): returns the
text written to the output file so far together with a success flag; a
parse failure stops the pass, keeping the text already written. -/
def secondPassAux (idx : Index) : List PyStr → PyStr × Bool
  | [] => ([], true)
  | l :: ls =>
    if isComment l then secondPassAux idx ls
    else
      match asPair (pySplitOn (str " -> ") l) with
      | none => ([], false)
      | some (d, o) =>
        if isIndented l then
          match translateMember idx d o with
          | none => ([], false)
          | some out =>
            let r := secondPassAux idx ls
            (out ++ r.1, r.2)
        else
          let r := secondPassAux idx ls
          (classLine d o ++ r.1, r.2)

/-- Outcome of one conversion on the output side: either no output file
was created at all (the first pass failed before the output file was
opened), or an output file exists with the given content; the flag
records whether the conversion ran to completion. -/
inductive FileOutcome where
  | noFile : FileOutcome
  | file (content : PyStr) (ok : Bool) : FileOutcome
deriving DecidableEq

/-- The conversion core of `convert_mappings`: first pass over all
lines builds the class index, the output file is only opened (created)
once the first pass has succeeded, then the second pass writes the
translated lines. -/
def convert (lines : List PyStr) : FileOutcome :=
  match firstPassAux [] lines with
  | none => FileOutcome.noFile
  | some idx =>
    let r := secondPassAux idx lines
    FileOutcome.file r.1 r.2

/-- Model of the whole of `convert_mappings` (src/main.py:412-489)
including its guard: when the converted mappings file already exists the
function returns at once (`none`: nothing read, nothing written),
otherwise it performs the conversion. -/
def convert_mappings (convertedFileExists : Bool) (lines : List PyStr) :
    Option FileOutcome :=
  if convertedFileExists then none else some (convert lines)

/-- The string `"[]"` repeated `k` times, appended after a bare token to
form a `k`-dimensional array token. -/
def brks : Nat → PyStr
  | 0 => []
  | k + 1 => brks k ++ str "[]"

lemma pyPre_length : ∀ (n l : PyStr), pyPre n l = true → n.length ≤ l.length := by
  intro n
  induction n with
  | nil => intro l _; simp
  | cons a as ih =>
    intro l h
    cases l with
    | nil => simp [pyPre] at h
    | cons b bs =>
      simp only [pyPre] at h
      split at h
      · simpa using ih bs h
      · exact absurd h (by simp)

lemma pyPre_refl : ∀ n : PyStr, pyPre n n = true := by
  intro n
  induction n with
  | nil => rfl
  | cons a as ih => simp [pyPre, ih]

lemma pyContains_length : ∀ (n l : PyStr), pyContains n l = true → n.length ≤ l.length := by
  intro n l
  induction l with
  | nil => intro h; exact pyPre_length n [] h
  | cons c t ih =>
    intro h
    simp only [pyContains, Bool.or_eq_true] at h
    rcases h with h | h
    · exact pyPre_length _ _ h
    · exact le_trans (ih h) (by simp)

lemma pyContains_append_self : ∀ (a n : PyStr), pyContains n (a ++ n) = true := by
  intro a n
  induction a with
  | nil =>
    cases n with
    | nil => rfl
    | cons c t => simp [pyContains, pyPre_refl]
  | cons c t ih => simp [pyContains, ih]

lemma removeBracketsF_fuel : ∀ (f g : Nat) (l : PyStr) (c : Nat),
    l.length ≤ f → l.length ≤ g → removeBracketsF f l c = removeBracketsF g l c := by
  have hnil : pyContains (str "[]") [] = false := by decide
  intro f
  induction f with
  | zero =>
    intro g l c hf _
    have hl : l = [] := List.length_eq_zero.mp (Nat.le_zero.mp hf)
    subst hl
    cases g <;> simp [removeBracketsF, hnil]
  | succ f ih =>
    intro g l c hf hg
    cases g with
    | zero =>
      have hl : l = [] := List.length_eq_zero.mp (Nat.le_zero.mp hg)
      subst hl
      simp [removeBracketsF, hnil]
    | succ g =>
      simp only [removeBracketsF]
      cases hcon : pyContains (str "[]") l with
      | false => simp
      | true =>
        have h2 : 2 ≤ l.length := pyContains_length _ _ hcon
        simp only [if_pos rfl]
        apply ih
        · simpa using by omega
        · simpa using by omega

lemma remove_brackets_of_not {l : PyStr} (h : pyContains (str "[]") l = false) (c : Nat) :
    remove_brackets l c = (l, c) := by
  unfold remove_brackets
  cases hn : l.length with
  | zero => rfl
  | succ n => simp [removeBracketsF, h]

lemma removeBracketsF_succ_pos {l : PyStr} {f c : Nat}
    (h : pyContains (str "[]") l = true) :
    removeBracketsF (f + 1) l c = removeBracketsF f (l.take (l.length - 2)) (c + 1) := by
  simp [removeBracketsF, h]

lemma remove_brackets_step (x : PyStr) (c : Nat) :
    remove_brackets (x ++ str "[]") c = remove_brackets x (c + 1) := by
  unfold remove_brackets
  have hcon := pyContains_append_self x (str "[]")
  have h2 : (str "[]").length = 2 := by decide
  have hlen : (x ++ str "[]").length = x.length + 2 := by
    rw [List.length_append, h2]
  rw [hlen, removeBracketsF_succ_pos hcon]
  have htake : (x ++ str "[]").take ((x ++ str "[]").length - 2) = x := by
    rw [hlen]
    have he : x.length + 2 - 2 = x.length := by omega
    rw [he, List.take_left]
  rw [htake]
  exact removeBracketsF_fuel _ _ _ _ (by omega) (le_refl _)

lemma remove_brackets_append (bare : PyStr) (k : Nat) :
    pyContains (str "[]") bare = false →
    ∀ c, remove_brackets (bare ++ brks k) c = (bare, c + k) := by
  induction k with
  | zero =>
    intro h c
    show remove_brackets (bare ++ []) c = (bare, c + 0)
    rw [List.append_nil, Nat.add_zero, remove_brackets_of_not h]
  | succ k ih =>
    intro h c
    have hstep : bare ++ brks (k + 1) = (bare ++ brks k) ++ str "[]" := by
      show bare ++ (brks k ++ str "[]") = (bare ++ brks k) ++ str "[]"
      rw [List.append_assoc]
    rw [hstep, remove_brackets_step, ih h (c + 1)]
    have he : c + 1 + k = c + (k + 1) := by omega
    rw [he]

lemma removeBracketsF_result : ∀ (f : Nat) (l : PyStr) (c : Nat), l.length ≤ f →
    pyContains (str "[]") (removeBracketsF f l c).1 = false ∧
      (removeBracketsF f l c).1.length ≤ l.length := by
  intro f
  induction f with
  | zero =>
    intro l c hf
    have hl : l = [] := List.length_eq_zero.mp (Nat.le_zero.mp hf)
    subst hl
    exact ⟨rfl, le_refl _⟩
  | succ f ih =>
    intro l c hf
    simp only [removeBracketsF]
    cases hcon : pyContains (str "[]") l with
    | false =>
      simp only [Bool.false_eq_true, if_false]
      exact ⟨hcon, le_refl _⟩
    | true =>
      have h2 : 2 ≤ l.length := pyContains_length (str "[]") l hcon
      simp only [if_pos rfl]
      have hlen : (l.take (l.length - 2)).length ≤ f := by
        simp only [List.length_take]
        omega
      have hres := ih (l.take (l.length - 2)) (c + 1) hlen
      refine ⟨hres.1, le_trans hres.2 ?_⟩
      simp only [List.length_take]
      omega

lemma bracketStep_cons (s : PyStr) : bracketStep s = '[' :: s := by
  unfold bracketStep
  cases hl : s.getLast? with
  | none => rfl
  | some c =>
    by_cases hc : c = ';'
    · subst hc
      simp only [if_pos rfl]
      have hd : s.dropLast ++ [';'] = s := List.dropLast_append_getLast? _ hl
      rw [← List.dropLast_eq_take]
      show '[' :: (s.dropLast ++ [';']) = '[' :: s
      rw [hd]
    · simp [hc]

lemma applyBrackets_replicate : ∀ (k : Nat) (s : PyStr),
    applyBrackets k s = List.replicate k '[' ++ s := by
  intro k
  induction k with
  | zero => intro s; simp [applyBrackets]
  | succ k ih =>
    intro s
    show applyBrackets k (bracketStep s) = List.replicate (k + 1) '[' ++ s
    rw [bracketStep_cons, ih]
    simp [List.replicate_succ', List.append_assoc]

lemma pyContains_single (c : Char) : ∀ (l : PyStr), pyContains [c] l = true ↔ c ∈ l := by
  intro l
  induction l with
  | nil => simp [pyContains, pyPre]
  | cons x t ih =>
    simp only [pyContains, pyPre, Bool.or_eq_true, ih, List.mem_cons]
    constructor
    · rintro (h | h)
      · left
        by_cases hcx : c = x
        · exact hcx
        · rw [if_neg hcx] at h; exact absurd h (by simp)
      · right; exact h
    · rintro (h | h)
      · left; rw [if_pos h]
      · right; exact h

lemma pyContains_single_eq_false {c : Char} {l : PyStr} (h : c ∉ l) :
    pyContains [c] l = false := by
  cases hb : pyContains [c] l with
  | false => rfl
  | true => exact absurd ((pyContains_single c l).mp hb) h

lemma pySplitChar_ne_nil (sep : Char) (p : PyStr) : pySplitChar sep p ≠ [] := by
  cases p with
  | nil => simp [pySplitChar]
  | cons c t =>
    simp only [pySplitChar]
    split
    · simp
    · cases hs : pySplitChar sep t <;> simp [consHead]

lemma mem_pySplitChar_not_mem (sep : Char) : ∀ (p part : PyStr),
    part ∈ pySplitChar sep p → sep ∉ part := by
  intro p
  induction p with
  | nil =>
    intro part h
    simp only [pySplitChar, List.mem_singleton] at h
    subst h
    simp
  | cons c t ih =>
    intro part h
    simp only [pySplitChar] at h
    by_cases hc : c = sep
    · rw [if_pos hc] at h
      rcases List.mem_cons.mp h with h1 | h2
      · subst h1; simp
      · exact ih part h2
    · rw [if_neg hc] at h
      cases hs : pySplitChar sep t with
      | nil => exact absurd hs (pySplitChar_ne_nil sep t)
      | cons h0 t0 =>
        rw [hs] at h
        simp only [consHead] at h
        rcases List.mem_cons.mp h with h1 | h2
        · subst h1
          intro hmem
          rcases List.mem_cons.mp hmem with h3 | h4
          · exact hc h3.symm
          · exact ih h0 (by rw [hs]; exact List.mem_cons_self _ _) h4
        · exact ih part (by rw [hs]; exact List.mem_cons_of_mem _ h2)

lemma not_mem_joinWith {c : Char} {sep : PyStr} (hsep : c ∉ sep) :
    ∀ (ps : List PyStr), (∀ p ∈ ps, c ∉ p) → c ∉ joinWith sep ps := by
  intro ps
  induction ps with
  | nil => intro _; simp [joinWith]
  | cons x xs ih =>
    intro h
    cases xs with
    | nil => simpa [joinWith] using h x (by simp)
    | cons y ys =>
      show c ∉ x ++ sep ++ joinWith sep (y :: ys)
      intro hmem
      rcases List.mem_append.mp hmem with h1 | h2
      · rcases List.mem_append.mp h1 with ha | hb
        · exact h x (by simp) ha
        · exact hsep hb
      · exact ih (fun p hp => h p (List.mem_cons_of_mem _ hp)) h2

lemma dictLookup_mem : ∀ (m : List (PyStr × PyStr)) (k v : PyStr),
    dictLookup m k = some v → ∃ k', (k', v) ∈ m := by
  intro m
  induction m with
  | nil => intro k v h; exact absurd h (by simp [dictLookup])
  | cons kv t ih =>
    intro k v h
    cases kv with
    | mk k' v' =>
      simp only [dictLookup] at h
      split at h
      · exact ⟨k', by simp [Option.some.inj h]⟩
      · obtain ⟨k'', hk''⟩ := ih k v h
        exact ⟨k'', List.mem_cons_of_mem _ hk''⟩

lemma remap_file_path_no_dot (p : PyStr) :
    pyContains (str ".") (remap_file_path p) = false := by
  unfold remap_file_path
  cases hl : dictLookup remap_primitives p with
  | some v =>
    obtain ⟨k', hmem⟩ := dictLookup_mem _ _ _ hl
    have hall : ∀ kv ∈ remap_primitives, pyContains (str ".") kv.2 = false := by decide
    exact hall (k', v) hmem
  | none =>
    apply pyContains_single_eq_false
    intro hmem
    rcases List.mem_cons.mp hmem with h1 | h2
    · exact absurd h1 (by decide)
    · rcases List.mem_append.mp h2 with ha | hb
      · exact not_mem_joinWith (by decide) _
          (fun part hp => mem_pySplitChar_not_mem '.' p part hp) ha
      · exact absurd hb (by decide)

lemma asPair_eq_none_iff (ps : List PyStr) : asPair ps = none ↔ ps.length ≠ 2 := by
  rcases ps with _ | ⟨a, _ | ⟨b, _ | ⟨c, t⟩⟩⟩ <;> simp [asPair]

lemma firstPassAux_append : ∀ (pre post : List PyStr) (m : Index),
    firstPassAux m (pre ++ post) =
      (firstPassAux m pre).bind (fun m2 => firstPassAux m2 post) := by
  intro pre
  induction pre with
  | nil => intro post m; simp [firstPassAux]
  | cons l ls ih =>
    intro post m
    simp only [List.cons_append, firstPassAux]
    cases hc : isComment l with
    | true => simp only [if_pos rfl]; exact ih post m
    | false =>
      simp only [Bool.false_eq_true, if_false]
      cases hs : asPair (pySplitOn (str " -> ") l) with
      | none => simp
      | some pr =>
        cases pr with
        | mk d o =>
          cases hi : isIndented l with
          | true => simp only [if_pos rfl]; exact ih post m
          | false => simp only [Bool.false_eq_true, if_false]; exact ih post _

lemma firstPassAux_bad : ∀ (lines : List PyStr) (m : Index),
    (∃ l, l ∈ lines ∧ isComment l = false ∧ (pySplitOn (str " -> ") l).length ≠ 2) →
    firstPassAux m lines = none := by
  intro lines
  induction lines with
  | nil =>
    intro m h
    rcases h with ⟨l, hl, _⟩
    exact absurd hl (by simp)
  | cons x xs ih =>
    intro m h
    rcases h with ⟨l, hl, hcom, hlen⟩
    simp only [firstPassAux]
    rcases List.mem_cons.mp hl with rfl | hmem
    · have hnone : asPair (pySplitOn (str " -> ") l) = none :=
        (asPair_eq_none_iff _).mpr hlen
      simp [hcom, hnone]
    · cases hc : isComment x with
      | true =>
        simp only [if_pos rfl]
        exact ih m ⟨l, hmem, hcom, hlen⟩
      | false =>
        simp only [Bool.false_eq_true, if_false]
        cases hs : asPair (pySplitOn (str " -> ") x) with
        | none => rfl
        | some pr =>
          cases pr with
          | mk d o =>
            cases hi : isIndented x with
            | true => simp only [if_pos rfl]; exact ih m ⟨l, hmem, hcom, hlen⟩
            | false =>
              simp only [Bool.false_eq_true, if_false]
              exact ih _ ⟨l, hmem, hcom, hlen⟩

lemma translateType_not_indexed {idx : Index} {bare : PyStr} (k : Nat)
    (hb : pyContains (str "[]") bare = false)
    (hl : dictLookup idx (remap_file_path bare) = none) :
    translateType idx (bare ++ brks k) = List.replicate k '[' ++ remap_file_path bare := by
  simp only [translateType]
  rw [remove_brackets_append bare k hb 0]
  simp only [Nat.zero_add, hl, remap_file_path_no_dot, Bool.false_eq_true, if_false]
  exact applyBrackets_replicate k _

lemma translateType_indexed {idx : Index} {bare obf : PyStr} (k : Nat)
    (hb : pyContains (str "[]") bare = false)
    (hl : dictLookup idx (remap_file_path bare) = some obf)
    (hobf : '.' ∉ obf) :
    translateType idx (bare ++ brks k) =
      List.replicate k '[' ++ ('L' :: (obf ++ str ";")) := by
  have hdot : pyContains (str ".") ('L' :: (obf ++ str ";")) = false := by
    apply pyContains_single_eq_false
    intro hmem
    rcases List.mem_cons.mp hmem with h1 | h2
    · exact absurd h1 (by decide)
    · rcases List.mem_append.mp h2 with ha | hb'
      · exact hobf ha
      · exact absurd hb' (by decide)
  simp only [translateType]
  rw [remove_brackets_append bare k hb 0]
  simp only [Nat.zero_add, hl, hdot, Bool.false_eq_true, if_false]
  exact applyBrackets_replicate k _

lemma translateMember_method {idx : Index} {d o mt0 mn vout : PyStr}
    (hsplit : asPair (pySplitChar ' ' (pyStripLeft d)) = some (mt0, mn))
    (hop : pyContains (str "(") mn = true)
    (hcp : pyContains (str ")") mn = true)
    (hp : paramsOut idx (methodParams mn) = some vout) :
    translateMember idx d o = some (str "\t" ++ pyStripRight o ++ str " (" ++ vout
      ++ str ")" ++ translateType idx ((pySplitChar ':' mt0).getLastD [])
      ++ str " " ++ methodName mn ++ str "\n") := by
  unfold translateMember
  dsimp only
  rw [hsplit]
  dsimp only
  rw [hop, hcp, Bool.and_self, if_pos rfl, hp]

lemma translateMember_field {idx : Index} {d o mt0 mn : PyStr}
    (hsplit : asPair (pySplitChar ' ' (pyStripLeft d)) = some (mt0, mn))
    (hno : (pyContains (str "(") mn && pyContains (str ")") mn) = false) :
    translateMember idx d o = some (str "\t" ++ pyStripRight o ++ str " " ++ mn ++ str "\n") := by
  unfold translateMember
  dsimp only
  rw [hsplit]
  dsimp only
  rw [hno]
  simp

example : remove_brackets (str "int[][]") 0 = (str "int", 2) := by decide
example :
    convert [str "com.foo.Bar -> a:\n", str "    int x -> b\n", str "    void f(,) -> e\n"] =
      FileOutcome.file (str "a com/foo/Bar\n\tb x\n") false := by decide
example : remove_brackets (str "a[]b") 0 = (str "a[", 1) := by decide
example : remap_file_path (str "com.foo.Bar") = str "Lcom/foo/Bar;" := by decide
example : remap_file_path (str "void") = str "V" := by decide
example : remap_file_path (str "") = str "L;" := by decide
example :
    convert [str "com.foo.Bar -> a:\n", str "    int x -> b\n"] =
      FileOutcome.file (str "a com/foo/Bar\n\tb x\n") true := by decide
example :
    convert [str "com.foo.Bar -> a:\n", str "    14:20:void doIt(int,com.foo.Bar) -> c\n"] =
      FileOutcome.file (str "a com/foo/Bar\n\tc (ILa;)V doIt\n") true := by decide
example :
    convert [str "com.foo.Bar -> a:\n", str "    14:20:int[] calc(java.lang.String[]) -> d\n"] =
      FileOutcome.file (str "a com/foo/Bar\n\td ([Ljava/lang/String;)[I calc\n") true := by
  decide
example :
    convert [str "com.foo.Baz -> x:\n", str "    com.other.Qux get() -> g\n",
        str "com.other.Qux -> q:\n"] =
      FileOutcome.file (str "x com/foo/Baz\n\tg ()Lq; get\nq com/other/Qux\n") true := by
  decide
example : convert [str "com.foo.Bar -> a\n"] =
    FileOutcome.file (str "a\n com/foo/Bar\n") true := by decide
example :
    convert [str "com.foo.Bar -> a:\n", str "    int x -> b\n", str "    int x y -> c\n"] =
      FileOutcome.file (str "a com/foo/Bar\n\tb x\n") false := by decide
example : convert [str "oops\n"] = FileOutcome.noFile := by decide

/-- C1 (amended): every indented method line — one whose
deobfuscated side splits into a type token and a name containing both
parentheses, and whose parameter list the code can process — is emitted
as a leading tab, then the obfuscated method name, the descriptor
`(<paramDescriptors>)<returnDescriptor>` and the deobfuscated method
name separated by single spaces (not tabs); concretely, for the class
header `com.foo.Bar -> a:` and the indented line
`    14:20:void doIt(int,com.foo.Bar) -> c`, the full output is the
class line `a com/foo/Bar` followed by the member line
`\tc (ILa;)V doIt`. -/
theorem convert_method_line_space_separated :
    (∀ (idx : Index) (d o mt0 mn vout : PyStr),
        asPair (pySplitChar ' ' (pyStripLeft d)) = some (mt0, mn) →
        pyContains (str "(") mn = true →
        pyContains (str ")") mn = true →
        paramsOut idx (methodParams mn) = some vout →
        translateMember idx d o = some (str "\t" ++ pyStripRight o ++ str " (" ++ vout
          ++ str ")" ++ translateType idx ((pySplitChar ':' mt0).getLastD [])
          ++ str " " ++ methodName mn ++ str "\n"))
    ∧ convert [str "com.foo.Bar -> a:\n", str "    14:20:void doIt(int,com.foo.Bar) -> c\n"] =
        FileOutcome.file (str "a com/foo/Bar\n\tc (ILa;)V doIt\n") true :=
  ⟨fun _ _ _ _ _ _ h1 h2 h3 h4 => translateMember_method h1 h2 h3 h4, by decide⟩

/-- C1 witness: the universal method-line format instantiated at the
member line `14:20:void doIt(int,com.foo.Bar) -> c` with the class
index mapping `Lcom/foo/Bar;` to `a`, evaluating to the space-separated
output `\tc (ILa;)V doIt`. -/
theorem convert_method_line_space_separated_witness :
    translateMember [(str "Lcom/foo/Bar;", str "a")]
        (str "    14:20:void doIt(int,com.foo.Bar)") (str "c\n") =
      some (str "\tc (ILa;)V doIt\n") :=
  (convert_method_line_space_separated.1 [(str "Lcom/foo/Bar;", str "a")]
      (str "    14:20:void doIt(int,com.foo.Bar)") (str "c\n")
      (str "14:20:void") (str "doIt(int,com.foo.Bar)") (str "ILa;")
      (by decide) (by decide) (by decide) (by decide)).trans (by decide)

/-- C1 counterexample: on the claim's own concrete input the converter
does not produce the claimed tab-separated member line
`\tc\t(ILa;)V\tdoIt`; the fields after the leading tab are separated by
spaces, not tabs. -/
theorem convert_method_line_not_tab_separated :
    convert [str "com.foo.Bar -> a:\n", str "    14:20:void doIt(int,com.foo.Bar) -> c\n"] ≠
      FileOutcome.file (str "a com/foo/Bar\n\tc\t(ILa;)V\tdoIt\n") true := by decide

/-- C2 (amended): every indented field line — one whose deobfuscated
side splits into a type token and a name without the parenthesis pair —
is emitted as a leading tab, the obfuscated field name, a single space
(not a tab), and the deobfuscated field name, with no type descriptor
of any kind; concretely, for the class header `com.foo.Bar -> a:` and
the indented line `    int x -> b`, the full output is the class line
`a com/foo/Bar` followed by the member line `\tb x`. -/
theorem convert_field_line_space_separated :
    (∀ (idx : Index) (d o mt0 mn : PyStr),
        asPair (pySplitChar ' ' (pyStripLeft d)) = some (mt0, mn) →
        (pyContains (str "(") mn && pyContains (str ")") mn) = false →
        translateMember idx d o =
          some (str "\t" ++ pyStripRight o ++ str " " ++ mn ++ str "\n"))
    ∧ convert [str "com.foo.Bar -> a:\n", str "    int x -> b\n"] =
        FileOutcome.file (str "a com/foo/Bar\n\tb x\n") true :=
  ⟨fun _ _ _ _ _ h1 h2 => translateMember_field h1 h2, by decide⟩

/-- C2 witness: the universal field-line format instantiated at the
member line `int x -> b`, evaluating to `\tb x`. -/
theorem convert_field_line_space_separated_witness :
    translateMember [] (str "    int x") (str "b\n") = some (str "\tb x\n") :=
  (convert_field_line_space_separated.1 [] (str "    int x") (str "b\n")
      (str "int") (str "x") (by decide) (by decide)).trans (by decide)

/-- C2 counterexample: on the claim's own concrete input the converter
does not produce the claimed tab-separated member line `\tb\tx`; the two
names are separated by a space after the leading tab. -/
theorem convert_field_line_not_tab_separated :
    convert [str "com.foo.Bar -> a:\n", str "    int x -> b\n"] ≠
      FileOutcome.file (str "a com/foo/Bar\n\tb\tx\n") true := by decide

/-- C3 (amended): a non-comment line that does not split into exactly
two pieces at ` -> ` makes the conversion fail during the first pass,
before the output file is created, so no output file (not even a
partial one) is produced; but a class header lacking only the trailing
colon is accepted without any error, and an indented member line whose
deobfuscated-side split fails, or whose parameter list cannot be
processed (a non-empty all-comma list, the `IndexError` path), aborts
the conversion during the second pass while leaving the partially
written output file in place. -/
theorem convert_malformed_line_handling :
    (∀ lines : List PyStr,
        (∃ l, l ∈ lines ∧ isComment l = false ∧ (pySplitOn (str " -> ") l).length ≠ 2) →
        convert lines = FileOutcome.noFile)
    ∧ convert [str "com.foo.Bar -> a\n"] = FileOutcome.file (str "a\n com/foo/Bar\n") true
    ∧ convert [str "com.foo.Bar -> a:\n", str "    int x -> b\n", str "    int x y -> c\n"] =
        FileOutcome.file (str "a com/foo/Bar\n\tb x\n") false
    ∧ convert [str "com.foo.Bar -> a:\n", str "    int x -> b\n", str "    void f(,) -> e\n"] =
        FileOutcome.file (str "a com/foo/Bar\n\tb x\n") false := by
  refine ⟨?_, by decide, by decide, by decide⟩
  intro lines h
  unfold convert
  rw [firstPassAux_bad lines [] h]

/-- C3 witness: instantiating the first-pass abort at the concrete
input line `oops` (which has no ` -> ` separator). -/
theorem convert_malformed_line_handling_witness :
    convert [str "oops\n"] = FileOutcome.noFile :=
  convert_malformed_line_handling.1 [str "oops\n"] ⟨str "oops\n", by decide⟩

/-- C3 counterexample: a class header lacking the trailing colon
(`com.foo.Bar -> a`) completes without any error; an input whose third
line has an unparseable member split fails only after the class line
and the first field line were already written, leaving a partial output
file; and an input whose third line has an unprocessable parameter list
(`void f(,)`) likewise fails leaving the same partial file —
contradicting the claim that every malformed line aborts with no output
file at all. -/
theorem convert_malformed_line_counterexample :
    convert [str "com.foo.Bar -> a\n"] = FileOutcome.file (str "a\n com/foo/Bar\n") true
    ∧ convert [str "com.foo.Bar -> a:\n", str "    int x -> b\n", str "    int x y -> c\n"] =
        FileOutcome.file (str "a com/foo/Bar\n\tb x\n") false
    ∧ convert [str "com.foo.Bar -> a:\n", str "    int x -> b\n", str "    void f(,) -> e\n"] =
        FileOutcome.file (str "a com/foo/Bar\n\tb x\n") false
    ∧ FileOutcome.file (str "a com/foo/Bar\n\tb x\n") false ≠ FileOutcome.noFile := by
  refine ⟨by decide, by decide, by decide, by decide⟩

/-- C4: the class index is built by a complete first pass over every
line before the second pass translates any member: splitting the input
anywhere, the first pass is the sequential composition of the passes
over the two parts (so headers in the suffix are indexed too), and on a
concrete input whose member line references class `com.other.Qux`
declared only on a later line, the rendered descriptor still
substitutes the obfuscated name `q`, giving member line `\tg ()Lq; get`. -/
theorem convert_two_pass_forward_reference :
    (∀ (pre post : List PyStr) (m : Index),
        firstPassAux m (pre ++ post) =
          (firstPassAux m pre).bind (fun m2 => firstPassAux m2 post))
    ∧ convert [str "com.foo.Baz -> x:\n", str "    com.other.Qux get() -> g\n",
          str "com.other.Qux -> q:\n"] =
        FileOutcome.file (str "x com/foo/Baz\n\tg ()Lq; get\nq com/other/Qux\n") true :=
  ⟨firstPassAux_append, by decide⟩

/-- C5: for a type token made of a bare token followed by `k` trailing
`[]` pairs, the translation strips the `k` dimensions, encodes the bare
token, substitutes `L<obfuscatedName>;` exactly when the encoded
descriptor is a key of the class index, and re-applies the `k`
dimensions as `k` leading `[` characters in front of the whole
descriptor (never inside it); concretely, `int[]` renders as `[I` and a
`java.lang.String[]` parameter with no index entry renders as
`[Ljava/lang/String;`. -/
theorem convert_array_descriptor_rendering :
    (∀ (idx : Index) (bare : PyStr) (k : Nat),
        pyContains (str "[]") bare = false →
        dictLookup idx (remap_file_path bare) = none →
        translateType idx (bare ++ brks k) = List.replicate k '[' ++ remap_file_path bare)
    ∧ (∀ (idx : Index) (bare obf : PyStr) (k : Nat),
        pyContains (str "[]") bare = false →
        dictLookup idx (remap_file_path bare) = some obf →
        '.' ∉ obf →
        translateType idx (bare ++ brks k) =
          List.replicate k '[' ++ ('L' :: (obf ++ str ";")))
    ∧ convert [str "com.foo.Bar -> a:\n",
          str "    14:20:int[] calc(java.lang.String[]) -> d\n"] =
        FileOutcome.file (str "a com/foo/Bar\n\td ([Ljava/lang/String;)[I calc\n") true :=
  ⟨fun _ _ k hb hl => translateType_not_indexed k hb hl,
   fun _ _ _ k hb hl hobf => translateType_indexed k hb hl hobf,
   by decide⟩

/-- C5 witness: the two general branches instantiated at `int[][]`
(primitive, not indexed) and at `com.foo.Bar[]` with the index mapping
`Lcom/foo/Bar;` to `a`. -/
theorem convert_array_descriptor_rendering_witness :
    translateType [] (str "int" ++ brks 2) =
      List.replicate 2 '[' ++ remap_file_path (str "int")
    ∧ translateType [(str "Lcom/foo/Bar;", str "a")] (str "com.foo.Bar" ++ brks 1) =
        List.replicate 1 '[' ++ ('L' :: (str "a" ++ str ";")) :=
  ⟨convert_array_descriptor_rendering.1 [] (str "int") 2 (by decide) (by decide),
   convert_array_descriptor_rendering.2.1 [(str "Lcom/foo/Bar;", str "a")]
     (str "com.foo.Bar") (str "a") 1 (by decide) (by decide) (by decide)⟩

/-- C6: the type encoder maps each of the nine primitive keywords to its
one-character descriptor, and every other token (the dictionary lookup
failing) to `L` + the dot-to-slash rewritten token + `;`, without
consulting any class index; consequently no non-primitive token ever
encodes to one of the nine single-character descriptors standing
alone. -/
theorem remap_file_path_primitive_or_reference :
    (remap_file_path (str "int") = str "I" ∧ remap_file_path (str "double") = str "D" ∧
     remap_file_path (str "boolean") = str "Z" ∧ remap_file_path (str "float") = str "F" ∧
     remap_file_path (str "long") = str "J" ∧ remap_file_path (str "byte") = str "B" ∧
     remap_file_path (str "short") = str "S" ∧ remap_file_path (str "char") = str "C" ∧
     remap_file_path (str "void") = str "V")
    ∧ (∀ path : PyStr, dictLookup remap_primitives path = none →
        remap_file_path path = 'L' :: (joinWith (str "/") (pySplitChar '.' path) ++ str ";")
        ∧ remap_file_path path ∉ [str "I", str "D", str "Z", str "F", str "J", str "B",
            str "S", str "C", str "V"]) := by
  refine ⟨by decide, ?_⟩
  intro path h
  have heq : remap_file_path path =
      'L' :: (joinWith (str "/") (pySplitChar '.' path) ++ str ";") := by
    unfold remap_file_path
    rw [h]
  refine ⟨heq, ?_⟩
  intro hmem
  have hone : ∀ s ∈ [str "I", str "D", str "Z", str "F", str "J", str "B",
      str "S", str "C", str "V"], List.length s = 1 := by decide
  have h1 := hone _ hmem
  rw [heq] at h1
  simp only [List.length_cons, List.length_append] at h1
  rw [show (str ";").length = 1 from rfl] at h1
  omega

/-- C6 witness: the non-primitive branch instantiated at the token
`com.foo`. -/
theorem remap_file_path_primitive_or_reference_witness :
    remap_file_path (str "com.foo") =
      'L' :: (joinWith (str "/") (pySplitChar '.' (str "com.foo")) ++ str ";")
    ∧ remap_file_path (str "com.foo") ∉ [str "I", str "D", str "Z", str "F", str "J",
        str "B", str "S", str "C", str "V"] :=
  remap_file_path_primitive_or_reference.2 (str "com.foo") (by decide)

/-- C7 (amended): `remove_brackets`, started with counter 0, returns
(input, 0) for every input containing no `[]` substring anywhere (the
loop guard is substring containment, not a trailing-pair test), and for
a token consisting of a bare part with no `[]` substring followed by
`k` trailing `[]` pairs it returns the bare token and the count `k`; it
is a total function. -/
theorem remove_brackets_strips_trailing_pairs :
    (∀ (l : PyStr) (c : Nat), pyContains (str "[]") l = false → remove_brackets l c = (l, c))
    ∧ (∀ (bare : PyStr) (k : Nat), pyContains (str "[]") bare = false →
        remove_brackets (bare ++ brks k) 0 = (bare, k)) :=
  ⟨fun _ c h => remove_brackets_of_not h c,
   fun bare k h => by rw [remove_brackets_append bare k h 0, Nat.zero_add]⟩

/-- C7 witness: the trailing-pair branch instantiated at `int[][]` and
the no-occurrence branch at `foo` with counter 5. -/
theorem remove_brackets_strips_trailing_pairs_witness :
    remove_brackets (str "int" ++ brks 2) 0 = (str "int", 2)
    ∧ remove_brackets (str "foo") 5 = (str "foo", 5) :=
  ⟨remove_brackets_strips_trailing_pairs.2 (str "int") 2 (by decide),
   remove_brackets_strips_trailing_pairs.1 (str "foo") 5 (by decide)⟩

/-- C7 counterexample: the input `a[]b` has no trailing `[]` pair (its
last two characters are `]b`), yet `remove_brackets` does not return
(`a[]b`, 0): the guard `'[]' in line` fires on the interior occurrence
and the function chops the last two characters, returning (`a[`, 1). -/
theorem remove_brackets_nontrailing_counterexample :
    (str "a[]b").drop ((str "a[]b").length - 2) ≠ str "[]"
    ∧ remove_brackets (str "a[]b") 0 ≠ (str "a[]b", 0)
    ∧ remove_brackets (str "a[]b") 0 = (str "a[", 1) := by decide

/-- C8 (amended): the type encoder does not reject the empty token: for
the empty-string input it returns the descriptor `L;` (the ordinary
reference-type encoding applied to the empty path), signalling no
error. -/
theorem remap_file_path_empty_token :
    remap_file_path (str "") = str "L;" := by decide

/-- C8 counterexample: on the empty token the encoder takes the normal
reference-type branch and returns the two-character value `L;`; it is
total there and produces a descriptor rather than any error. -/
theorem remap_file_path_empty_token_counterexample :
    remap_file_path (str "") =
      'L' :: (joinWith (str "/") (pySplitChar '.' (str "")) ++ str ";")
    ∧ remap_file_path (str "") ≠ [] := by decide

/-- C9 (amended): `convert_mappings` checks whether the converted
output file already exists before doing anything else: when it exists
the function returns at once, reading and writing nothing; only
otherwise does it carry out the full conversion. -/
theorem convert_mappings_existence_check :
    (∀ lines : List PyStr, convert_mappings true lines = none)
    ∧ (∀ lines : List PyStr, convert_mappings false lines = some (convert lines))
    ∧ convert_mappings false [str "com.foo.Bar -> a:\n", str "    int x -> b\n"] =
        some (FileOutcome.file (str "a com/foo/Bar\n\tb x\n") true) :=
  ⟨fun _ => rfl, fun _ => rfl, by decide⟩

/-- C9 counterexample: with the converted output file already present,
`convert_mappings` does not carry out the conversion it would have
performed otherwise on the very same input. -/
theorem convert_mappings_existence_counterexample :
    convert_mappings true [str "com.foo.Bar -> a:\n", str "    int x -> b\n"] ≠
      convert_mappings false [str "com.foo.Bar -> a:\n", str "    int x -> b\n"] := by decide

/-- C10: `remove_brackets` terminates on every input: the result is
always defined, the loop has exited (the returned string no longer
contains `[]`), and the returned string is never longer than the
input. -/
theorem remove_brackets_terminates :
    ∀ (l : PyStr) (c : Nat),
      pyContains (str "[]") (remove_brackets l c).1 = false
      ∧ (remove_brackets l c).1.length ≤ l.length :=
  fun l c => removeBracketsF_result l.length l c (le_refl _)
